import Mathlib

/-!
# Position synchronisation of the two-player networking sample (`main.go`)

A shallow embedding of `Game.Update` and the helpers it calls.

* Go `int` is taken at its 64-bit width: values are `Int`, and every `+=` of the
  source is `goAdd`, addition followed by two's-complement wrap-around.
* `g.players` is a two-element array; indexing with an `int` outside `0..1`
  is a run-time panic, modelled by `Except Panic`.
* `netChan` is fed by the `NetLoop` goroutine. The values that the `select`
  of one `Update` call receives before its `default` branch fires are an
  input of the call (`inbox`), in the order in which they are received.
* `ebiten.IsKeyPressed` reads the keyboard, an input of the call (`Keyboard`).
* `gob.Encoder.Encode` may fail. The encoder records every value handed to
  it (`sent`) and carries the outcomes of its forthcoming writes (`faults`).
-/

namespace NetSample

/-! ## Go `int` -/

/-- Smallest value of a 64-bit Go `int`. -/
def minInt : Int := -9223372036854775808

/-- Largest value of a 64-bit Go `int`. -/
def maxInt : Int := 9223372036854775807

/-- Reduction of a mathematical integer to the 64-bit two's-complement range. -/
def wrapInt (z : Int) : Int :=
  (z + 9223372036854775808) % 18446744073709551616 - 9223372036854775808

/-- Go `a + b` on `int`: overflow wraps around. -/
def goAdd (a b : Int) : Int := wrapInt (a + b)

/-- The value fits a Go `int`. -/
def IsGoInt (z : Int) : Prop := minInt ≤ z ∧ z ≤ maxInt

instance (z : Int) : Decidable (IsGoInt z) := by
  unfold IsGoInt; infer_instance

/-! ## Data model -/

/-- The struct `MoveMessage` (`main.go`, lines 25-29). -/
structure MoveMessage where
  Id : Int
  X : Int
  Y : Int
  deriving DecidableEq, Repr

/-- A value of type `interface{}` travelling through `netChan` or handed to
`NetSend`: either a `MoveMessage` or a value of any other dynamic type. -/
inductive NetValue where
  | move (m : MoveMessage)
  | other
  deriving DecidableEq, Repr

/-- The anonymous element struct of `Game.players`: `struct { x, y int }`. -/
structure Player where
  x : Int
  y : Int
  deriving DecidableEq, Repr

/-- The array `players [2]struct{ x, y int }`. -/
structure Players where
  p0 : Player
  p1 : Player
  deriving DecidableEq, Repr

/-- Run-time panics of the Go program. -/
inductive Panic where
  | indexOutOfRange (index : Int) (length : Nat)
  deriving DecidableEq, Repr

/-- Values of the Go interface `error` that are not `nil`. -/
inductive GoError where
  | writeFailed
  deriving DecidableEq, Repr

/-- The `gob.Encoder` over the connection. `sent` lists the values handed to
`Encode` so far, oldest first; `faults` gives the outcome of the forthcoming
writes (`true`: the write fails), a write past its end succeeding. -/
structure Encoder where
  sent : List NetValue
  faults : List Bool
  deriving DecidableEq, Repr

/-- The fields of `Game` that `Update` reads or writes (`main.go`, lines 32-43). -/
structure Game where
  encoder : Encoder
  isServer : Bool
  players : Players
  deriving DecidableEq, Repr

/-- The four keys `Update` polls. -/
inductive Key where
  | KeyLeft
  | KeyRight
  | KeyDown
  | KeyUp
  deriving DecidableEq, Repr

/-- The keyboard state during one frame. -/
structure Keyboard where
  left : Bool
  right : Bool
  down : Bool
  up : Bool
  deriving DecidableEq, Repr

/-- The call `ebiten.IsKeyPressed(key)`. -/
def IsKeyPressed (kb : Keyboard) : Key → Bool
  | .KeyLeft => kb.left
  | .KeyRight => kb.right
  | .KeyDown => kb.down
  | .KeyUp => kb.up

/-! ## Array access -/

/-- The read `players[i]` with Go's bounds check. -/
def Players.index (ps : Players) (i : Int) : Except Panic Player :=
  if i < 0 ∨ 2 ≤ i then .error (.indexOutOfRange i 2)
  else if i = 0 then .ok ps.p0
  else .ok ps.p1

/-- The assignment `players[i].x = v` with Go's bounds check. -/
def Players.setX (ps : Players) (i : Int) (v : Int) : Except Panic Players :=
  if i < 0 ∨ 2 ≤ i then .error (.indexOutOfRange i 2)
  else if i = 0 then .ok { ps with p0 := { ps.p0 with x := v } }
  else .ok { ps with p1 := { ps.p1 with x := v } }

/-- The assignment `players[i].y = v` with Go's bounds check. -/
def Players.setY (ps : Players) (i : Int) (v : Int) : Except Panic Players :=
  if i < 0 ∨ 2 ≤ i then .error (.indexOutOfRange i 2)
  else if i = 0 then .ok { ps with p0 := { ps.p0 with y := v } }
  else .ok { ps with p1 := { ps.p1 with y := v } }

/-! ## Sending -/

/-- The call `encoder.Encode(&msg)`: the value is handed to the encoder and
the outcome of the write is returned. -/
def Encoder.Encode (e : Encoder) (msg : NetValue) : Encoder × Option GoError :=
  match e.faults with
  | [] => ({ sent := e.sent ++ [msg], faults := [] }, none)
  | f :: fs =>
    ({ sent := e.sent ++ [msg], faults := fs }, if f then some .writeFailed else none)

/-- `Game.NetSend` (`main.go`, lines 134-136): the result of `Encode` is dropped. -/
def Game.NetSend (g : Game) (msg : NetValue) : Game :=
  { g with encoder := (g.encoder.Encode msg).1 }

/-! ## `Game.Update` -/

/-- The body of `case msg := <-g.netChan` (`main.go`, lines 50-68). -/
def Game.recvCase (g : Game) (msg : NetValue) : Except Panic Game :=
  match msg with
  | .move m =>
    if g.isServer then
      let g1 : Game :=
        { g with players := { g.players with
            p1 := { g.players.p1 with x := goAdd g.players.p1.x m.X } } }
      let g2 : Game :=
        { g1 with players := { g1.players with
            p1 := { g1.players.p1 with y := goAdd g1.players.p1.y m.Y } } }
      .ok (g2.NetSend (.move { Id := 1, X := g2.players.p1.x, Y := g2.players.p1.y }))
    else
      match g.players.setX m.Id m.X with
      | .error e => .error e
      | .ok ps1 =>
        match ps1.setY m.Id m.Y with
        | .error e => .error e
        | .ok ps2 => .ok { g with players := ps2 }
  | .other => .ok g

/-- The drain loop `for done := false; !done; { select ... }` (`main.go`,
lines 48-73) run on the values the channel delivers during the call. -/
def Game.drain : Game → List NetValue → Except Panic Game
  | g, [] => .ok g
  | g, msg :: rest =>
    match g.recvCase msg with
    | .error e => .error e
    | .ok g1 => Game.drain g1 rest

/-- The movement derived from the keyboard (`main.go`, lines 76-85). -/
def readMove (kb : Keyboard) : MoveMessage :=
  let move : MoveMessage := { Id := 0, X := 0, Y := 0 }
  if IsKeyPressed kb .KeyLeft then { move with X := -1 }
  else if IsKeyPressed kb .KeyRight then { move with X := 1 }
  else if IsKeyPressed kb .KeyDown then { move with Y := 1 }
  else if IsKeyPressed kb .KeyUp then { move with Y := -1 }
  else move

/-- The sending of the movement (`main.go`, lines 87-104). -/
def Game.emit (g : Game) (move : MoveMessage) : Game :=
  if move.X ≠ 0 ∨ move.Y ≠ 0 then
    if g.isServer then
      let g1 : Game :=
        { g with players := { g.players with
            p0 := { g.players.p0 with x := goAdd g.players.p0.x move.X } } }
      let g2 : Game :=
        { g1 with players := { g1.players with
            p0 := { g1.players.p0 with y := goAdd g1.players.p0.y move.Y } } }
      g2.NetSend (.move { Id := 0, X := g2.players.p0.x, Y := g2.players.p0.y })
    else
      g.NetSend (.move { Id := 0, X := move.X, Y := move.Y })
  else g

/-- `Game.Update` (`main.go`, lines 46-106). A normal return carries the new
state and the returned `error`, which the source fixes to `nil`. -/
def Game.Update (g : Game) (inbox : List NetValue) (kb : Keyboard) :
    Except Panic (Game × Option GoError) :=
  match g.drain inbox with
  | .error e => .error e
  | .ok g1 => .ok (g1.emit (readMove kb), none)

/-- The starting positions set in `main` (`main.go`, lines 142-145). -/
def initPlayers : Players := { p0 := { x := 100, y := 100 }, p1 := { x := 200, y := 200 } }

/-- The host state of `main` before the first frame, no write failing. -/
def hostInit : Game := { encoder := { sent := [], faults := [] }, isServer := true, players := initPlayers }

/-- A joiner state of `main` before the first frame, no write failing. -/
def joinInit : Game := { encoder := { sent := [], faults := [] }, isServer := false, players := initPlayers }

/-- Only the left key is held. -/
def leftHeld : Keyboard := { left := true, right := false, down := false, up := false }

/-- Only the right key is held. -/
def rightHeld : Keyboard := { left := false, right := true, down := false, up := false }

/-- No direction key is held. -/
def noKeys : Keyboard := { left := false, right := false, down := false, up := false }

/-! ## Vocabulary of the statements -/

/-- Sum of the `X` fields of a list of messages. -/
def sumX (ms : List MoveMessage) : Int := (ms.map fun m => m.X).sum

/-- Sum of the `Y` fields of a list of messages. -/
def sumY (ms : List MoveMessage) : Int := (ms.map fun m => m.Y).sum

/-- The `MoveMessage`s among received values, in order. -/
def movesOf : List NetValue → List MoveMessage
  | [] => []
  | .move m :: vs => m :: movesOf vs
  | .other :: vs => movesOf vs

/-- A position after one delta has been added to it with Go addition. -/
def addDelta (p : Player) (m : MoveMessage) : Player :=
  { x := goAdd p.x m.X, y := goAdd p.y m.Y }

/-- A position after the deltas of a list have been added one after the other. -/
def addDeltas (p : Player) (ms : List MoveMessage) : Player := ms.foldl addDelta p

/-- The positions reached after each delta of a list, as messages for slot 1. -/
def echoes : Player → List MoveMessage → List NetValue
  | _, [] => []
  | p, m :: ms =>
    .move { Id := 1, X := (addDelta p m).x, Y := (addDelta p m).y } :: echoes (addDelta p m) ms

/-- Some `MoveMessage` of the list carries the `Id` `i`. -/
def OccursId (i : Int) (out : List NetValue) : Prop :=
  ∃ m : MoveMessage, NetValue.move m ∈ out ∧ m.Id = i

/-- The value is among those that some `Update` of some host state sends. -/
def HostEmitted (v : NetValue) : Prop :=
  ∃ (H : Game) (inbox : List NetValue) (kb : Keyboard) (H1 : Game) (out : List NetValue),
    H.isServer = true ∧ H.Update inbox kb = .ok (H1, none) ∧
    H1.encoder.sent = H.encoder.sent ++ out ∧ v ∈ out

/-- The two states agree on the role, the player slots and the values handed
to the encoder; only the outcomes of the writes may differ. -/
def AgreeUpToFaults (a b : Game) : Prop :=
  a.isServer = b.isServer ∧ a.players = b.players ∧ a.encoder.sent = b.encoder.sent

/-- The starting host state over a connection whose next write fails. -/
def failingHost : Game :=
  { encoder := { sent := [], faults := [true] }, isServer := true, players := initPlayers }

/-! ## Arithmetic of `goAdd` -/

theorem wrapInt_of_isGoInt (z : Int) (h : IsGoInt z) : wrapInt z = z := by
  unfold IsGoInt minInt maxInt at h
  unfold wrapInt
  omega

theorem isGoInt_wrapInt (z : Int) : IsGoInt (wrapInt z) := by
  unfold IsGoInt minInt maxInt wrapInt
  omega

theorem wrapInt_wrapInt_add (a b : Int) : wrapInt (wrapInt a + b) = wrapInt (a + b) := by
  unfold wrapInt
  omega

theorem goAdd_goAdd (a b c : Int) : goAdd (goAdd a b) c = goAdd a (b + c) := by
  unfold goAdd
  rw [wrapInt_wrapInt_add, add_assoc]

theorem goAdd_of_isGoInt (a b : Int) (h : IsGoInt (a + b)) : goAdd a b = a + b :=
  wrapInt_of_isGoInt _ h

/-! ## One step of each phase -/

theorem Encode_sent (e : Encoder) (msg : NetValue) :
    (e.Encode msg).1.sent = e.sent ++ [msg] := by
  unfold Encoder.Encode
  cases e.faults <;> rfl

theorem NetSend_sent (g : Game) (msg : NetValue) :
    (g.NetSend msg).encoder.sent = g.encoder.sent ++ [msg] :=
  Encode_sent g.encoder msg

theorem NetSend_players (g : Game) (msg : NetValue) :
    (g.NetSend msg).players = g.players := rfl

theorem NetSend_isServer (g : Game) (msg : NetValue) :
    (g.NetSend msg).isServer = g.isServer := rfl

/-- The host's handling of one received `MoveMessage`, as a value. -/
theorem recvCase_host_eq (g : Game) (m : MoveMessage) (h : g.isServer = true) :
    g.recvCase (.move m) = .ok (Game.NetSend
      { g with players := { g.players with
          p1 := { x := goAdd g.players.p1.x m.X, y := goAdd g.players.p1.y m.Y } } }
      (.move { Id := 1, X := goAdd g.players.p1.x m.X, Y := goAdd g.players.p1.y m.Y })) := by
  simp only [Game.recvCase, h, if_true]

/-- What the host does with one received `MoveMessage`. -/
theorem recvCase_host (g : Game) (m : MoveMessage) (h : g.isServer = true) :
    ∃ g1, g.recvCase (.move m) = .ok g1 ∧ g1.isServer = true ∧
      g1.players.p0 = g.players.p0 ∧
      g1.players.p1 = { x := goAdd g.players.p1.x m.X, y := goAdd g.players.p1.y m.Y } ∧
      g1.encoder.sent = g.encoder.sent ++
        [.move { Id := 1, X := goAdd g.players.p1.x m.X, Y := goAdd g.players.p1.y m.Y }] := by
  refine ⟨_, recvCase_host_eq g m h, ?_, ?_, ?_, ?_⟩
  · simp [NetSend_isServer, h]
  · simp [NetSend_players]
  · simp [NetSend_players]
  · simp [NetSend_sent]

/-- What the joiner does with one received `MoveMessage` whose `Id` is a slot. -/
theorem recvCase_join (g : Game) (m : MoveMessage) (h : g.isServer = false)
    (hid : m.Id = 0 ∨ m.Id = 1) :
    g.recvCase (.move m) = .ok { g with players :=
      if m.Id = 0 then { g.players with p0 := { x := m.X, y := m.Y } }
      else { g.players with p1 := { x := m.X, y := m.Y } } } := by
  rcases hid with h0 | h1
  · simp [Game.recvCase, h, Players.setX, Players.setY, h0]
  · simp [Game.recvCase, h, Players.setX, Players.setY, h1]

/-- The joiner's handling of a `MoveMessage` whose `Id` is no slot panics. -/
theorem recvCase_join_panic (g : Game) (m : MoveMessage) (h : g.isServer = false)
    (hid : m.Id < 0 ∨ 2 ≤ m.Id) :
    g.recvCase (.move m) = .error (.indexOutOfRange m.Id 2) := by
  simp [Game.recvCase, h, Players.setX, hid]

theorem drain_single (g : Game) (v : NetValue) : g.drain [v] = g.recvCase v := by
  unfold Game.drain
  cases g.recvCase v <;> rfl

/-! ## The drain phase, one message -/

/-- C1: on the host, after the drain phase has processed one queued `MoveMessage`
`m` (any `Id`, any `X`, `Y`), `players[1]` is its prior value plus `(m.X, m.Y)`
in Go `int` addition, added once, which is the mathematical sum when neither
coordinate overflows, and `players[0]` is unchanged. -/
theorem host_drain_one_adds_delta (g : Game) (m : MoveMessage) (h : g.isServer = true) :
    ∃ g1, g.drain [.move m] = .ok g1 ∧
      g1.players.p1 = { x := goAdd g.players.p1.x m.X, y := goAdd g.players.p1.y m.Y } ∧
      (IsGoInt (g.players.p1.x + m.X) → IsGoInt (g.players.p1.y + m.Y) →
        g1.players.p1 = { x := g.players.p1.x + m.X, y := g.players.p1.y + m.Y }) ∧
      g1.players.p0 = g.players.p0 := by
  obtain ⟨g1, hok, -, hp0, hp1, -⟩ := recvCase_host g m h
  refine ⟨g1, by rw [drain_single, hok], hp1, ?_, hp0⟩
  intro hx hy
  rw [hp1, goAdd_of_isGoInt _ _ hx, goAdd_of_isGoInt _ _ hy]

/-- C1 at the starting host state with the delta `(1, 0)`. -/
theorem host_drain_one_adds_delta_witness :
    hostInit.isServer = true ∧
    ∃ g1, hostInit.drain [.move { Id := 0, X := 1, Y := 0 }] = .ok g1 ∧
      g1.players.p1 = { x := goAdd hostInit.players.p1.x 1, y := goAdd hostInit.players.p1.y 0 } ∧
      (IsGoInt (hostInit.players.p1.x + 1) → IsGoInt (hostInit.players.p1.y + 0) →
        g1.players.p1 = { x := hostInit.players.p1.x + 1, y := hostInit.players.p1.y + 0 }) ∧
      g1.players.p0 = hostInit.players.p0 :=
  ⟨rfl, host_drain_one_adds_delta hostInit { Id := 0, X := 1, Y := 0 } rfl⟩

/-- C2: on the host, the drain phase run on one queued `MoveMessage` `m` extends
the sent values by exactly one value, the message `{Id: 1, X, Y}` whose `(X, Y)`
is `players[1]` after `m` has been added, the new absolute position. -/
theorem host_drain_one_echo (g : Game) (m : MoveMessage) (h : g.isServer = true) :
    ∃ g1, g.drain [.move m] = .ok g1 ∧
      g1.encoder.sent = g.encoder.sent ++
        [.move { Id := 1, X := g1.players.p1.x, Y := g1.players.p1.y }] ∧
      g1.players.p1 = { x := goAdd g.players.p1.x m.X, y := goAdd g.players.p1.y m.Y } := by
  obtain ⟨g1, hok, -, -, hp1, hsent⟩ := recvCase_host g m h
  refine ⟨g1, by rw [drain_single, hok], ?_, hp1⟩
  rw [hsent, hp1]

/-- C2 at the starting host state with the delta `(1, 0)`. -/
theorem host_drain_one_echo_witness :
    hostInit.isServer = true ∧
    ∃ g1, hostInit.drain [.move { Id := 0, X := 1, Y := 0 }] = .ok g1 ∧
      g1.encoder.sent = hostInit.encoder.sent ++
        [.move { Id := 1, X := g1.players.p1.x, Y := g1.players.p1.y }] ∧
      g1.players.p1 = { x := goAdd hostInit.players.p1.x 1, y := goAdd hostInit.players.p1.y 0 } :=
  ⟨rfl, host_drain_one_echo hostInit { Id := 0, X := 1, Y := 0 } rfl⟩

/-- C3: on the joiner, after the drain phase has processed one queued
`MoveMessage` `m` with `m.Id` in `{0, 1}`, `players[m.Id]` is exactly
`(m.X, m.Y)`, the other slot `players[1 - m.Id]` is unchanged, and nothing was
sent (the encoder is unchanged). -/
theorem join_drain_one_overwrites (g : Game) (m : MoveMessage) (h : g.isServer = false)
    (hid : m.Id = 0 ∨ m.Id = 1) :
    ∃ g1, g.drain [.move m] = .ok g1 ∧
      g1.players.index m.Id = .ok { x := m.X, y := m.Y } ∧
      g1.players.index (1 - m.Id) = g.players.index (1 - m.Id) ∧
      g1.encoder = g.encoder := by
  refine ⟨{ g with players :=
      if m.Id = 0 then { g.players with p0 := { x := m.X, y := m.Y } }
      else { g.players with p1 := { x := m.X, y := m.Y } } },
    by rw [drain_single, recvCase_join g m h hid], ?_, ?_, rfl⟩
  · rcases hid with h0 | h1
    · simp [Players.index, h0]
    · simp [Players.index, h1]
  · rcases hid with h0 | h1
    · simp [Players.index, h0]
    · simp [Players.index, h1]

/-- C3 at the starting joiner state with the message `{Id: 1, X: 201, Y: 200}`. -/
theorem join_drain_one_overwrites_witness :
    joinInit.isServer = false ∧ ((1 : Int) = 0 ∨ (1 : Int) = 1) ∧
    ∃ g1, joinInit.drain [.move { Id := 1, X := 201, Y := 200 }] = .ok g1 ∧
      g1.players.index 1 = .ok { x := 201, y := 200 } ∧
      g1.players.index (1 - 1) = joinInit.players.index (1 - 1) ∧
      g1.encoder = joinInit.encoder :=
  ⟨rfl, Or.inr rfl,
    join_drain_one_overwrites joinInit { Id := 1, X := 201, Y := 200 } rfl (Or.inr rfl)⟩

/-! ## Input and the emit phase -/

/-- C6: for each of the 16 key states the derived delta is chosen by the
priority left, right, down, up: `(-1,0)` if left is held, else `(1,0)` if right,
else `(0,1)` if down, else `(0,-1)` if up, else `(0,0)`; it is one of these five
values, and it is `(0,0)` exactly when no direction key is held. -/
theorem readMove_priority (kb : Keyboard) :
    ((readMove kb).X, (readMove kb).Y) =
      (if IsKeyPressed kb .KeyLeft then ((-1 : Int), (0 : Int))
       else if IsKeyPressed kb .KeyRight then (1, 0)
       else if IsKeyPressed kb .KeyDown then (0, 1)
       else if IsKeyPressed kb .KeyUp then (0, -1)
       else (0, 0)) ∧
    ((readMove kb).X, (readMove kb).Y) ∈
      [((-1 : Int), (0 : Int)), (1, 0), (0, 1), (0, -1), (0, 0)] ∧
    (((readMove kb).X, (readMove kb).Y) = (0, 0) ↔
      (IsKeyPressed kb .KeyLeft = false ∧ IsKeyPressed kb .KeyRight = false ∧
        IsKeyPressed kb .KeyDown = false ∧ IsKeyPressed kb .KeyUp = false)) := by
  rcases kb with ⟨l, r, d, u⟩
  cases l <;> cases r <;> cases d <;> cases u <;> decide

/-- C4: on the host, when the delta derived from the keys is not `(0,0)` the
emit phase sets `players[0]` to its prior value plus the delta (Go `int`
addition, the mathematical sum when nothing overflows), leaves `players[1]`
unchanged and sends exactly one message `{Id: 0, X, Y}` carrying the resulting
`players[0]`; when the delta is `(0,0)` the state is unchanged and nothing is sent. -/
theorem host_emit (g : Game) (kb : Keyboard) (h : g.isServer = true) :
    ((readMove kb).X ≠ 0 ∨ (readMove kb).Y ≠ 0 →
      (g.emit (readMove kb)).players.p0 =
        { x := goAdd g.players.p0.x (readMove kb).X,
          y := goAdd g.players.p0.y (readMove kb).Y } ∧
      (IsGoInt (g.players.p0.x + (readMove kb).X) →
        IsGoInt (g.players.p0.y + (readMove kb).Y) →
        (g.emit (readMove kb)).players.p0 =
          { x := g.players.p0.x + (readMove kb).X, y := g.players.p0.y + (readMove kb).Y }) ∧
      (g.emit (readMove kb)).players.p1 = g.players.p1 ∧
      (g.emit (readMove kb)).encoder.sent = g.encoder.sent ++
        [.move { Id := 0, X := (g.emit (readMove kb)).players.p0.x,
                 Y := (g.emit (readMove kb)).players.p0.y }]) ∧
    ((readMove kb).X = 0 ∧ (readMove kb).Y = 0 → g.emit (readMove kb) = g) := by
  constructor
  · intro hne
    have hp0 : (g.emit (readMove kb)).players.p0 =
        { x := goAdd g.players.p0.x (readMove kb).X,
          y := goAdd g.players.p0.y (readMove kb).Y } := by
      simp only [Game.emit, hne, h, if_true, NetSend_players]
    refine ⟨hp0, ?_, ?_, ?_⟩
    · intro hx hy
      rw [hp0, goAdd_of_isGoInt _ _ hx, goAdd_of_isGoInt _ _ hy]
    · simp only [Game.emit, hne, h, if_true, NetSend_players]
    · rw [hp0]
      simp only [Game.emit, hne, h, if_true, NetSend_sent]
  · rintro ⟨hx, hy⟩
    simp [Game.emit, hx, hy]

/-- C4 at `players[0] = (100,100)` with left held: `players[0]` becomes
`(99,100)` and the one message sent is `{Id: 0, X: 99, Y: 100}`. -/
theorem host_emit_witness :
    hostInit.isServer = true ∧
    ((readMove leftHeld).X ≠ 0 ∨ (readMove leftHeld).Y ≠ 0) ∧
    (hostInit.emit (readMove leftHeld)).players.p0 = { x := 99, y := 100 } ∧
    (hostInit.emit (readMove leftHeld)).players.p1 = hostInit.players.p1 ∧
    (hostInit.emit (readMove leftHeld)).encoder.sent =
      [.move { Id := 0, X := 99, Y := 100 }] :=
  have hne : (readMove leftHeld).X ≠ 0 ∨ (readMove leftHeld).Y ≠ 0 := Or.inl (by decide)
  have hall := (host_emit hostInit leftHeld rfl).1 hne
  ⟨rfl, hne, hall.1.trans (by decide), hall.2.2.1, hall.2.2.2.trans (by decide)⟩

/-- C5: on the joiner the emit phase changes neither player slot; when the
delta `(dx, dy)` derived from the keys is not `(0,0)` it sends exactly one
message `{Id: 0, X: dx, Y: dy}`, the raw delta under the zero `Id`, and when the
delta is `(0,0)` it sends nothing and the state is unchanged. -/
theorem join_emit (g : Game) (kb : Keyboard) (h : g.isServer = false) :
    (g.emit (readMove kb)).players = g.players ∧
    ((readMove kb).X ≠ 0 ∨ (readMove kb).Y ≠ 0 →
      (g.emit (readMove kb)).encoder.sent = g.encoder.sent ++
        [.move { Id := 0, X := (readMove kb).X, Y := (readMove kb).Y }]) ∧
    ((readMove kb).X = 0 ∧ (readMove kb).Y = 0 → g.emit (readMove kb) = g) := by
  refine ⟨?_, ?_, ?_⟩
  · unfold Game.emit
    split
    · simp [h, NetSend_players]
    · rfl
  · intro hne
    simp only [Game.emit, hne, h, if_true]
    exact NetSend_sent _ _
  · rintro ⟨hx, hy⟩
    simp [Game.emit, hx, hy]

/-- C5 at the starting joiner state with right held: the slots are unchanged
and the one message sent is `{Id: 0, X: 1, Y: 0}`. -/
theorem join_emit_witness :
    joinInit.isServer = false ∧
    (joinInit.emit (readMove rightHeld)).players = joinInit.players ∧
    (joinInit.emit (readMove rightHeld)).encoder.sent = [.move { Id := 0, X := 1, Y := 0 }] :=
  have hall := join_emit joinInit rightHeld rfl
  ⟨rfl, hall.1, (hall.2.1 (Or.inl (by decide))).trans (by decide)⟩

/-! ## The drain phase, whole queue -/

theorem drain_cons_ok (g g1 : Game) (v : NetValue) (vs : List NetValue)
    (h : g.recvCase v = .ok g1) : g.drain (v :: vs) = g1.drain vs := by
  rw [Game.drain, h]

theorem drain_eq_foldlM (vs : List NetValue) (g : Game) :
    g.drain vs = vs.foldlM Game.recvCase g := by
  induction vs generalizing g with
  | nil => rfl
  | cons v vs ih =>
    rw [Game.drain, List.foldlM_cons]
    cases hv : g.recvCase v with
    | error e => rfl
    | ok g1 => exact ih g1

theorem drain_append (a b : List NetValue) (g g1 : Game) (h : g.drain a = .ok g1) :
    g.drain (a ++ b) = g1.drain b := by
  induction a generalizing g with
  | nil =>
    simp only [Game.drain, Except.ok.injEq] at h
    rw [List.nil_append, h]
  | cons v vs ih =>
    rw [Game.drain] at h
    cases hv : g.recvCase v with
    | error e => rw [hv] at h; cases h
    | ok g2 =>
      rw [hv] at h
      rw [List.cons_append, drain_cons_ok g g2 v _ hv]
      exact ih g2 h

/-- The host's drain of any received values: it returns, `players[0]` is kept,
`players[1]` has had every delta added in order, and the echoes were sent. -/
theorem host_drain (vs : List NetValue) (g : Game) (h : g.isServer = true) :
    ∃ g1, g.drain vs = .ok g1 ∧ g1.isServer = true ∧
      g1.players.p0 = g.players.p0 ∧
      g1.players.p1 = addDeltas g.players.p1 (movesOf vs) ∧
      g1.encoder.sent = g.encoder.sent ++ echoes g.players.p1 (movesOf vs) := by
  induction vs generalizing g with
  | nil => exact ⟨g, rfl, h, rfl, rfl, by simp [movesOf, echoes]⟩
  | cons v vs ih =>
    cases v with
    | other =>
      obtain ⟨g2, hok, hs, hp0, hp1, hsent⟩ := ih g h
      exact ⟨g2, by rw [drain_cons_ok g g .other _ rfl, hok], hs, hp0, hp1, hsent⟩
    | move m =>
      obtain ⟨g1, hok1, hs1, hp01, hp11, hsent1⟩ := recvCase_host g m h
      obtain ⟨g2, hok, hs, hp0, hp1, hsent⟩ := ih g1 hs1
      refine ⟨g2, by rw [drain_cons_ok g g1 _ _ hok1, hok], hs, hp0.trans hp01, ?_, ?_⟩
      · rw [hp1, hp11]; rfl
      · rw [hsent, hsent1, hp11]
        simp [movesOf, echoes, addDelta]

theorem addDeltas_wrap (ms : List MoveMessage) (a b : Int) :
    addDeltas { x := wrapInt a, y := wrapInt b } ms =
      { x := wrapInt (a + sumX ms), y := wrapInt (b + sumY ms) } := by
  induction ms generalizing a b with
  | nil => simp [addDeltas, sumX, sumY]
  | cons m ms ih =>
    have hstep : addDeltas { x := wrapInt a, y := wrapInt b } (m :: ms) =
        addDeltas { x := wrapInt (a + m.X), y := wrapInt (b + m.Y) } ms := by
      simp [addDeltas, addDelta, goAdd, wrapInt_wrapInt_add]
    rw [hstep, ih]
    simp [sumX, sumY, add_assoc]

theorem addDeltas_eq (ms : List MoveMessage) (p : Player)
    (hx : IsGoInt p.x) (hy : IsGoInt p.y) :
    addDeltas p ms = { x := wrapInt (p.x + sumX ms), y := wrapInt (p.y + sumY ms) } := by
  have h := addDeltas_wrap ms p.x p.y
  rw [wrapInt_of_isGoInt _ hx, wrapInt_of_isGoInt _ hy] at h
  exact h

theorem echoes_length (ms : List MoveMessage) (p : Player) :
    (echoes p ms).length = ms.length := by
  induction ms generalizing p with
  | nil => rfl
  | cons m ms ih => simp [echoes, ih]

theorem echoes_get_wrap (ms : List MoveMessage) (a b : Int) (k : Nat) (hk : k < ms.length) :
    (echoes { x := wrapInt a, y := wrapInt b } ms)[k]? =
      some (.move { Id := 1, X := wrapInt (a + sumX (ms.take (k + 1))),
                    Y := wrapInt (b + sumY (ms.take (k + 1))) }) := by
  induction ms generalizing a b k with
  | nil => simp at hk
  | cons m ms ih =>
    have hstep : addDelta { x := wrapInt a, y := wrapInt b } m =
        { x := wrapInt (a + m.X), y := wrapInt (b + m.Y) } := by
      simp [addDelta, goAdd, wrapInt_wrapInt_add]
    cases k with
    | zero => simp [echoes, hstep, sumX, sumY]
    | succ k =>
      have hk2 : k < ms.length := by simpa using hk
      simp only [echoes, hstep, List.getElem?_cons_succ]
      rw [ih _ _ k hk2]
      simp [sumX, sumY, add_assoc]

theorem echoes_get (ms : List MoveMessage) (p : Player) (hx : IsGoInt p.x) (hy : IsGoInt p.y)
    (k : Nat) (hk : k < ms.length) :
    (echoes p ms)[k]? =
      some (.move { Id := 1, X := wrapInt (p.x + sumX (ms.take (k + 1))),
                    Y := wrapInt (p.y + sumY (ms.take (k + 1))) }) := by
  have h := echoes_get_wrap ms p.x p.y k hk
  rw [wrapInt_of_isGoInt _ hx, wrapInt_of_isGoInt _ hy] at h
  exact h

theorem movesOf_map_move (ms : List MoveMessage) : movesOf (ms.map .move) = ms := by
  induction ms with
  | nil => rfl
  | cons m ms ih => simp [movesOf, ih]

/-- C7: on the host, for a state whose `players[1]` holds Go `int`s and any
finite list `ms` of queued `MoveMessage`s, the drain phase returns, having
handled the messages one after the other in queue order; then `players[1]` is
its prior value plus the sum of all deltas (Go `int` addition, the mathematical
sum when it does not overflow), `players[0]` is unchanged, and exactly
`ms.length` messages were sent, the `k`-th being `{Id: 1, X, Y}` with `(X, Y)`
the prior `players[1]` plus the sum of the first `k` deltas. For the empty list
the state is unchanged and nothing is sent. -/
theorem host_drain_all (g : Game) (ms : List MoveMessage) (h : g.isServer = true)
    (hx : IsGoInt g.players.p1.x) (hy : IsGoInt g.players.p1.y) :
    ∃ g1, g.drain (ms.map .move) = .ok g1 ∧
      g.drain (ms.map .move) = (ms.map .move).foldlM Game.recvCase g ∧
      g1.players.p1 =
        { x := wrapInt (g.players.p1.x + sumX ms), y := wrapInt (g.players.p1.y + sumY ms) } ∧
      (IsGoInt (g.players.p1.x + sumX ms) → IsGoInt (g.players.p1.y + sumY ms) →
        g1.players.p1 = { x := g.players.p1.x + sumX ms, y := g.players.p1.y + sumY ms }) ∧
      g1.players.p0 = g.players.p0 ∧
      (∃ out, g1.encoder.sent = g.encoder.sent ++ out ∧ out.length = ms.length ∧
        ∀ k, k < ms.length →
          out[k]? = some (.move
            { Id := 1, X := wrapInt (g.players.p1.x + sumX (ms.take (k + 1))),
              Y := wrapInt (g.players.p1.y + sumY (ms.take (k + 1))) }) ∧
          (IsGoInt (g.players.p1.x + sumX (ms.take (k + 1))) →
            IsGoInt (g.players.p1.y + sumY (ms.take (k + 1))) →
            out[k]? = some (.move
              { Id := 1, X := g.players.p1.x + sumX (ms.take (k + 1)),
                Y := g.players.p1.y + sumY (ms.take (k + 1)) }))) ∧
      (ms = [] → g1 = g) := by
  obtain ⟨g1, hok, -, hp0, hp1, hsent⟩ := host_drain (ms.map .move) g h
  rw [movesOf_map_move] at hp1 hsent
  have hp1w := hp1.trans (addDeltas_eq ms g.players.p1 hx hy)
  refine ⟨g1, hok, drain_eq_foldlM _ g, hp1w, ?_, hp0, ?_, ?_⟩
  · intro h1 h2
    rw [hp1w, wrapInt_of_isGoInt _ h1, wrapInt_of_isGoInt _ h2]
  · refine ⟨echoes g.players.p1 ms, hsent, echoes_length ms _, ?_⟩
    intro k hk
    have hget := echoes_get ms g.players.p1 hx hy k hk
    refine ⟨hget, ?_⟩
    intro h1 h2
    rw [hget, wrapInt_of_isGoInt _ h1, wrapInt_of_isGoInt _ h2]
  · intro hnil
    subst hnil
    simp only [List.map_nil, Game.drain, Except.ok.injEq] at hok
    exact hok.symm

/-- C7 at the starting host state with the queue `(1,0), (0,-1)`: the drain
returns with `players[1] = (201,199)` after sending `{1,201,200}`, `{1,201,199}`. -/
theorem host_drain_all_witness :
    hostInit.isServer = true ∧ IsGoInt hostInit.players.p1.x ∧ IsGoInt hostInit.players.p1.y ∧
    hostInit.drain [.move { Id := 0, X := 1, Y := 0 }, .move { Id := 0, X := 0, Y := -1 }] =
      .ok { encoder := { sent := [.move { Id := 1, X := 201, Y := 200 },
                                  .move { Id := 1, X := 201, Y := 199 }], faults := [] },
            isServer := true,
            players := { p0 := { x := 100, y := 100 }, p1 := { x := 201, y := 199 } } } ∧
    ∃ g1, hostInit.drain
        (([{ Id := 0, X := 1, Y := 0 }, { Id := 0, X := 0, Y := -1 }] : List MoveMessage).map
          .move) = .ok g1 :=
  have hall := host_drain_all hostInit
    [{ Id := 0, X := 1, Y := 0 }, { Id := 0, X := 0, Y := -1 }] rfl (by decide) (by decide)
  ⟨rfl, by decide, by decide, rfl, hall.imp fun _ hg => hg.1⟩

/-! ## Host output drained by the joiner -/

theorem emit_host_moving (g : Game) (mv : MoveMessage) (h : g.isServer = true)
    (hne : mv.X ≠ 0 ∨ mv.Y ≠ 0) :
    g.emit mv = Game.NetSend
      { g with players := { g.players with
          p0 := { x := goAdd g.players.p0.x mv.X, y := goAdd g.players.p0.y mv.Y } } }
      (.move { Id := 0, X := goAdd g.players.p0.x mv.X, Y := goAdd g.players.p0.y mv.Y }) := by
  simp only [Game.emit, hne, h, if_true]

theorem emit_still (g : Game) (mv : MoveMessage) (hz : ¬ (mv.X ≠ 0 ∨ mv.Y ≠ 0)) :
    g.emit mv = g := by
  simp only [Game.emit, hz, if_false]

theorem echoes_mem (ms : List MoveMessage) (p : Player) (v : NetValue)
    (hv : v ∈ echoes p ms) : ∃ m, v = .move m ∧ m.Id = 1 := by
  induction ms generalizing p with
  | nil => simp [echoes] at hv
  | cons m ms ih =>
    simp only [echoes, List.mem_cons] at hv
    rcases hv with hv | hv
    · exact ⟨_, hv, rfl⟩
    · exact ih _ hv

/-- The joiner's drain of the echoes of a host: it returns, sends nothing,
keeps `players[0]`, and `players[1]` is the last echoed position, if any. -/
theorem join_drain_echoes (ms : List MoveMessage) (p : Player) (J : Game)
    (hJ : J.isServer = false) :
    ∃ J1, J.drain (echoes p ms) = .ok J1 ∧ J1.isServer = false ∧
      J1.encoder = J.encoder ∧ J1.players.p0 = J.players.p0 ∧
      J1.players.p1 = (if ms = [] then J.players.p1 else addDeltas p ms) := by
  induction ms generalizing p J with
  | nil => exact ⟨J, rfl, hJ, rfl, rfl, by simp⟩
  | cons m ms ih =>
    have hstep := recvCase_join J
      { Id := 1, X := (addDelta p m).x, Y := (addDelta p m).y } hJ (Or.inr rfl)
    simp only [one_ne_zero, if_false] at hstep
    obtain ⟨J1, hok, hs, henc, hp0, hp1⟩ := ih (addDelta p m) _ (show Game.isServer
      { J with players := { J.players with
          p1 := { x := (addDelta p m).x, y := (addDelta p m).y } } } = false from hJ)
    refine ⟨J1, ?_, hs, henc, hp0, ?_⟩
    · rw [echoes, drain_cons_ok _ _ _ _ hstep, hok]
    · rw [hp1]
      by_cases hms : ms = []
      · subst hms
        simp [addDeltas]
      · simp [hms, addDeltas]

/-- One `Update` of a host followed by the joiner's drain of what it sent. -/
theorem host_update_join_drain (H J : Game) (inbox : List NetValue) (kb : Keyboard)
    (hH : H.isServer = true) (hJ : J.isServer = false) :
    ∃ H1 out J1, H.Update inbox kb = .ok (H1, none) ∧
      H1.encoder.sent = H.encoder.sent ++ out ∧
      J.drain out = .ok J1 ∧
      (∀ v ∈ out, ∃ m, v = .move m ∧ (m.Id = 0 ∨ m.Id = 1)) ∧
      (OccursId 0 out ∧ J1.players.p0 = H1.players.p0 ∨
        ¬ OccursId 0 out ∧ J1.players.p0 = J.players.p0 ∧ H1.players.p0 = H.players.p0) ∧
      (OccursId 1 out ∧ J1.players.p1 = H1.players.p1 ∨
        ¬ OccursId 1 out ∧ J1.players.p1 = J.players.p1 ∧ H1.players.p1 = H.players.p1) := by
  obtain ⟨g1, hok, hs, hp0, hp1, hsent⟩ := host_drain inbox H hH
  obtain ⟨J1, hJok, hJs, -, hJp0, hJp1⟩ := join_drain_echoes (movesOf inbox) H.players.p1 J hJ
  have hupd : H.Update inbox kb = .ok (g1.emit (readMove kb), none) := by
    simp only [Game.Update, hok]
  -- slot 1 after the echoes
  have hslot1 : ∀ tail : List NetValue, (∀ v ∈ tail, ∃ m, v = .move m ∧ m.Id = 0) →
      (OccursId 1 (echoes H.players.p1 (movesOf inbox) ++ tail) ∧
          J1.players.p1 = g1.players.p1 ∨
        ¬ OccursId 1 (echoes H.players.p1 (movesOf inbox) ++ tail) ∧
          J1.players.p1 = J.players.p1 ∧ g1.players.p1 = H.players.p1) := by
    intro tail htail
    cases hm : movesOf inbox with
    | nil =>
      right
      rw [hm] at hJp1 hp1
      refine ⟨?_, by simpa using hJp1, by simpa [addDeltas] using hp1⟩
      rintro ⟨m, hmem, hid⟩
      simp only [echoes, List.nil_append] at hmem
      obtain ⟨m2, hm2, hid2⟩ := htail _ hmem
      cases hm2
      omega
    | cons m ms =>
      left
      rw [hm] at hJp1 hp1
      refine ⟨⟨{ Id := 1, X := (addDelta H.players.p1 m).x, Y := (addDelta H.players.p1 m).y },
        ?_, rfl⟩, ?_⟩
      · simp only [echoes, List.cons_append, List.mem_cons, true_or]
      · rw [hJp1, hp1]; simp
  by_cases hne : (readMove kb).X ≠ 0 ∨ (readMove kb).Y ≠ 0
  · have hemit := emit_host_moving g1 (readMove kb) hs hne
    have hJ2 := recvCase_join J1
      { Id := 0, X := goAdd g1.players.p0.x (readMove kb).X,
        Y := goAdd g1.players.p0.y (readMove kb).Y } hJs (Or.inl rfl)
    simp only [if_true] at hJ2
    refine ⟨g1.emit (readMove kb), echoes H.players.p1 (movesOf inbox) ++
      [.move { Id := 0, X := goAdd g1.players.p0.x (readMove kb).X,
               Y := goAdd g1.players.p0.y (readMove kb).Y }],
      { J1 with players := { J1.players with
          p0 := { x := goAdd g1.players.p0.x (readMove kb).X,
                  y := goAdd g1.players.p0.y (readMove kb).Y } } },
      hupd, ?_, ?_, ?_, ?_, ?_⟩
    · rw [hemit, NetSend_sent]
      simp only [hsent, List.append_assoc]
    · rw [drain_append _ _ _ _ hJok, drain_single, hJ2]
    · intro v hv
      rcases List.mem_append.1 hv with hv | hv
      · obtain ⟨m, hm, hid⟩ := echoes_mem _ _ _ hv
        exact ⟨m, hm, Or.inr hid⟩
      · rw [List.mem_singleton] at hv
        exact ⟨_, hv, Or.inl rfl⟩
    · left
      refine ⟨⟨_, List.mem_append_right _ (List.mem_singleton.2 rfl), rfl⟩, ?_⟩
      rw [hemit]
      rfl
    · rw [hemit]
      exact hslot1 _ (by
        intro v hv
        rw [List.mem_singleton] at hv
        exact ⟨_, hv, rfl⟩)
  · have hemit := emit_still g1 (readMove kb) hne
    rw [hemit] at hupd
    refine ⟨g1, echoes H.players.p1 (movesOf inbox), J1, hupd, hsent, hJok, ?_, ?_, ?_⟩
    · intro v hv
      obtain ⟨m, hm, hid⟩ := echoes_mem _ _ _ hv
      exact ⟨m, hm, Or.inr hid⟩
    · right
      refine ⟨?_, hJp0, hp0⟩
      rintro ⟨m, hmem, hid⟩
      obtain ⟨m2, hm2, hid2⟩ := echoes_mem _ _ _ hmem
      cases hm2
      omega
    · have h1 := hslot1 [] (by simp)
      rw [List.append_nil] at h1
      exact h1

/-- The joiner's drain returns on values whose `Id`s are slots. -/
theorem join_drain_ok (vs : List NetValue) (J : Game) (hJ : J.isServer = false)
    (hall : ∀ v ∈ vs, ∃ m, v = .move m ∧ (m.Id = 0 ∨ m.Id = 1)) :
    ∃ J1, J.drain vs = .ok J1 := by
  induction vs generalizing J with
  | nil => exact ⟨J, rfl⟩
  | cons v vs ih =>
    obtain ⟨m, hm, hid⟩ := hall v (List.mem_cons_self _ _)
    subst hm
    have hstep := recvCase_join J m hJ hid
    obtain ⟨J1, hok⟩ := ih _ (show Game.isServer { J with players :=
      if m.Id = 0 then { J.players with p0 := { x := m.X, y := m.Y } }
      else { J.players with p1 := { x := m.X, y := m.Y } } } = false from hJ)
      (fun w hw => hall w (List.mem_cons_of_mem _ hw))
    exact ⟨J1, by rw [drain_cons_ok _ _ _ _ hstep, hok]⟩

theorem Players_eq (a b : Players) (h0 : a.p0 = b.p0) (h1 : a.p1 = b.p1) : a = b := by
  cases a; cases b; simp_all

/-- C9: for a host state `H`, any received values and any key state, let `H1`
and `out` be the state and the values sent by one `Update` of the host. For
every joiner state `J` the drain of `out` returns a state `J1` in which every
slot `i` occurring as an `Id` in `out` has `J1.players[i] = H1.players[i]` and
every other slot is as in `J`; so if `J` agreed with `H` on both slots, `J1`
agrees with `H1` on both slots. -/
theorem host_join_convergence (H J : Game) (inbox : List NetValue) (kb : Keyboard)
    (hH : H.isServer = true) (hJ : J.isServer = false) :
    ∃ H1 out J1, H.Update inbox kb = .ok (H1, none) ∧
      H1.encoder.sent = H.encoder.sent ++ out ∧
      J.drain out = .ok J1 ∧
      (∀ i, OccursId i out → J1.players.index i = H1.players.index i) ∧
      (∀ i, ¬ OccursId i out → J1.players.index i = J.players.index i) ∧
      (J.players = H.players → J1.players = H1.players) := by
  obtain ⟨H1, out, J1, hupd, hsent, hJok, hids, h0, h1⟩ :=
    host_update_join_drain H J inbox kb hH hJ
  refine ⟨H1, out, J1, hupd, hsent, hJok, ?_, ?_, ?_⟩
  · intro i hocc
    obtain ⟨m, hmem, hid⟩ := hocc
    obtain ⟨m2, hm2, hid2⟩ := hids _ hmem
    cases hm2
    rcases hid2 with hz | ho
    · have hi : i = 0 := by omega
      subst hi
      rcases h0 with ⟨-, e⟩ | ⟨hno, -⟩
      · simp [Players.index, e]
      · exact absurd ⟨m, hmem, hid⟩ hno
    · have hi : i = 1 := by omega
      subst hi
      rcases h1 with ⟨-, e⟩ | ⟨hno, -⟩
      · simp [Players.index, e]
      · exact absurd ⟨m, hmem, hid⟩ hno
  · intro i hno
    by_cases hi0 : i = 0
    · subst hi0
      rcases h0 with ⟨hocc, -⟩ | ⟨-, e, -⟩
      · exact absurd hocc hno
      · simp [Players.index, e]
    · by_cases hi1 : i = 1
      · subst hi1
        rcases h1 with ⟨hocc, -⟩ | ⟨-, e, -⟩
        · exact absurd hocc hno
        · simp [Players.index, e]
      · have hout : i < 0 ∨ 2 ≤ i := by omega
        simp [Players.index, hout]
  · intro heq
    apply Players_eq
    · rcases h0 with ⟨-, e⟩ | ⟨-, e, e2⟩
      · exact e
      · rw [e, e2, heq]
    · rcases h1 with ⟨-, e⟩ | ⟨-, e, e2⟩
      · exact e
      · rw [e, e2, heq]

/-- C9 at `H.players[1] = (200,200)` with the one received delta `(1,0)` and no
key held: the host reaches `players[1] = (201,200)` and sends
`{Id: 1, X: 201, Y: 200}`, and the joiner that drains it has `players[1] = (201,200)`. -/
theorem host_join_convergence_witness :
    hostInit.isServer = true ∧ joinInit.isServer = false ∧
    hostInit.Update [.move { Id := 0, X := 1, Y := 0 }] noKeys =
      .ok ({ encoder := { sent := [.move { Id := 1, X := 201, Y := 200 }], faults := [] },
             isServer := true,
             players := { p0 := { x := 100, y := 100 }, p1 := { x := 201, y := 200 } } }, none) ∧
    joinInit.drain [.move { Id := 1, X := 201, Y := 200 }] =
      .ok { encoder := { sent := [], faults := [] }, isServer := false,
            players := { p0 := { x := 100, y := 100 }, p1 := { x := 201, y := 200 } } } ∧
    ∃ H1 out J1, hostInit.Update [.move { Id := 0, X := 1, Y := 0 }] noKeys = .ok (H1, none) ∧
      H1.encoder.sent = hostInit.encoder.sent ++ out ∧
      joinInit.drain out = .ok J1 ∧
      (∀ i, OccursId i out → J1.players.index i = H1.players.index i) ∧
      (∀ i, ¬ OccursId i out → J1.players.index i = joinInit.players.index i) ∧
      (joinInit.players = hostInit.players → J1.players = H1.players) :=
  ⟨rfl, rfl, rfl, rfl,
    host_join_convergence hostInit joinInit [.move { Id := 0, X := 1, Y := 0 }] noKeys rfl rfl⟩

/-! ## Index safety -/

/-- C10: the joiner's handling of a `MoveMessage` `m` returns if and only if
`0 ≤ m.Id ≤ 1` and panics with an index out of range for every other `Id`;
every value a host sends in any `Update` is a `MoveMessage` with `Id` 0 or 1;
and the joiner's drain of any list of values sent by hosts returns. -/
theorem join_index_safety :
    (∀ (J : Game) (m : MoveMessage), J.isServer = false →
      ((∃ J1, J.recvCase (.move m) = .ok J1) ↔ (0 ≤ m.Id ∧ m.Id ≤ 1)) ∧
      (¬ (0 ≤ m.Id ∧ m.Id ≤ 1) →
        J.recvCase (.move m) = .error (.indexOutOfRange m.Id 2))) ∧
    (∀ v, HostEmitted v → ∃ m, v = .move m ∧ (m.Id = 0 ∨ m.Id = 1)) ∧
    (∀ (J : Game) (vs : List NetValue), J.isServer = false →
      (∀ v ∈ vs, HostEmitted v) → ∃ J1, J.drain vs = .ok J1) := by
  have hemitted : ∀ v, HostEmitted v → ∃ m, v = .move m ∧ (m.Id = 0 ∨ m.Id = 1) := by
    rintro v ⟨H, inbox, kb, H1, out, hH, hupd, hsent, hv⟩
    obtain ⟨H2, out2, -, hupd2, hsent2, -, hids, -, -⟩ :=
      host_update_join_drain H joinInit inbox kb hH rfl
    rw [hupd] at hupd2
    simp only [Except.ok.injEq, Prod.mk.injEq, and_true] at hupd2
    subst hupd2
    rw [hsent] at hsent2
    have hout : out = out2 := List.append_cancel_left hsent2
    subst hout
    exact hids v hv
  refine ⟨?_, hemitted, ?_⟩
  · intro J m hJ
    by_cases hid : 0 ≤ m.Id ∧ m.Id ≤ 1
    · have hid2 : m.Id = 0 ∨ m.Id = 1 := by omega
      exact ⟨⟨fun _ => hid, fun _ => ⟨_, recvCase_join J m hJ hid2⟩⟩, fun hno => absurd hid hno⟩
    · have hid2 : m.Id < 0 ∨ 2 ≤ m.Id := by omega
      have hpanic := recvCase_join_panic J m hJ hid2
      refine ⟨⟨?_, fun h => absurd h hid⟩, fun _ => hpanic⟩
      rintro ⟨J1, hok⟩
      rw [hpanic] at hok
      cases hok
  · intro J vs hJ hall
    exact join_drain_ok vs J hJ (fun v hv => hemitted v (hall v hv))

/-- C10 at the starting states: the message `{Id: 2}` panics on the joiner,
and the joiner's drain of what the host sends when left is held returns. -/
theorem join_index_safety_witness :
    joinInit.recvCase (.move { Id := 2, X := 0, Y := 0 }) = .error (.indexOutOfRange 2 2) ∧
    ∃ J1, joinInit.drain [.move { Id := 0, X := 99, Y := 100 }] = .ok J1 :=
  ⟨(join_index_safety.1 joinInit { Id := 2, X := 0, Y := 0 } rfl).2 (by decide),
    join_index_safety.2.2 joinInit [.move { Id := 0, X := 99, Y := 100 }] rfl (by
      intro v hv
      rw [List.mem_singleton] at hv
      subst hv
      exact ⟨hostInit, [], leftHeld, _, [.move { Id := 0, X := 99, Y := 100 }], rfl, rfl, rfl,
        List.mem_singleton.2 rfl⟩)⟩

/-! ## Failing writes -/

theorem agree_NetSend (a b : Game) (msg : NetValue) (h : AgreeUpToFaults a b) :
    AgreeUpToFaults (a.NetSend msg) (b.NetSend msg) := by
  obtain ⟨hs, hp, hsent⟩ := h
  refine ⟨hs, hp, ?_⟩
  rw [NetSend_sent, NetSend_sent, hsent]

theorem agree_recvCase (a b a1 : Game) (v : NetValue) (h : AgreeUpToFaults a b)
    (hok : a.recvCase v = .ok a1) :
    ∃ b1, b.recvCase v = .ok b1 ∧ AgreeUpToFaults a1 b1 := by
  obtain ⟨hs, hp, hsent⟩ := h
  cases v with
  | other =>
    simp only [Game.recvCase, Except.ok.injEq] at hok
    subst hok
    exact ⟨b, rfl, hs, hp, hsent⟩
  | move m =>
    cases hsrv : a.isServer with
    | true =>
      rw [recvCase_host_eq a m hsrv] at hok
      simp only [Except.ok.injEq] at hok
      subst hok
      refine ⟨_, recvCase_host_eq b m (hs ▸ hsrv), ?_⟩
      rw [← hp]
      exact agree_NetSend _ _ _ ⟨hs, rfl, hsent⟩
    | false =>
      have hb : b.isServer = false := hs ▸ hsrv
      by_cases hid : m.Id = 0 ∨ m.Id = 1
      · rw [recvCase_join a m hsrv hid] at hok
        simp only [Except.ok.injEq] at hok
        subst hok
        refine ⟨_, recvCase_join b m hb hid, hs, ?_, hsent⟩
        simp only [hp]
      · have hid2 : m.Id < 0 ∨ 2 ≤ m.Id := by omega
        rw [recvCase_join_panic a m hsrv hid2] at hok
        cases hok

theorem agree_drain (vs : List NetValue) (a b a1 : Game) (h : AgreeUpToFaults a b)
    (hok : a.drain vs = .ok a1) :
    ∃ b1, b.drain vs = .ok b1 ∧ AgreeUpToFaults a1 b1 := by
  induction vs generalizing a b with
  | nil =>
    simp only [Game.drain, Except.ok.injEq] at hok
    subst hok
    exact ⟨b, rfl, h⟩
  | cons v vs ih =>
    rw [Game.drain] at hok
    cases hv : a.recvCase v with
    | error e => rw [hv] at hok; cases hok
    | ok a2 =>
      rw [hv] at hok
      obtain ⟨b2, hb2, hagree⟩ := agree_recvCase a b a2 v h hv
      obtain ⟨b1, hb1, hagree1⟩ := ih a2 b2 hagree hok
      exact ⟨b1, by rw [drain_cons_ok _ _ _ _ hb2, hb1], hagree1⟩

theorem agree_emit (a b : Game) (mv : MoveMessage) (h : AgreeUpToFaults a b) :
    AgreeUpToFaults (a.emit mv) (b.emit mv) := by
  by_cases hne : mv.X ≠ 0 ∨ mv.Y ≠ 0
  · cases hsrv : a.isServer with
    | true =>
      rw [emit_host_moving a mv hsrv hne, emit_host_moving b mv (h.1 ▸ hsrv) hne, ← h.2.1]
      exact agree_NetSend _ _ _ ⟨h.1, rfl, h.2.2⟩
    | false =>
      have hb : b.isServer = false := h.1 ▸ hsrv
      simp only [Game.emit, hne, hsrv, hb, if_true]
      exact agree_NetSend _ _ _ h
  · rw [emit_still a mv hne, emit_still b mv hne]
    exact h

/-- C8 as the code has it: `NetSend` drops the result of the write, so a failing
write is ignored. Whenever an `Update` returns `nil` over a connection whose
writes all succeed, the same `Update` over a connection whose writes fail in
any pattern also returns `nil`, with the same player slots, the same role and
the same values handed to the encoder. -/
theorem update_ignores_write_failure (g : Game) (inbox : List NetValue) (kb : Keyboard)
    (faults : List Bool) (g1 : Game)
    (h : Game.Update { g with encoder := { g.encoder with faults := [] } } inbox kb =
      .ok (g1, none)) :
    ∃ g2, Game.Update { g with encoder := { g.encoder with faults := faults } } inbox kb =
        .ok (g2, none) ∧
      AgreeUpToFaults g1 g2 := by
  have hagree : AgreeUpToFaults { g with encoder := { g.encoder with faults := [] } }
      { g with encoder := { g.encoder with faults := faults } } := ⟨rfl, rfl, rfl⟩
  unfold Game.Update at h ⊢
  cases hd : Game.drain { g with encoder := { g.encoder with faults := [] } } inbox with
  | error e => rw [hd] at h; cases h
  | ok a1 =>
    rw [hd] at h
    simp only [Except.ok.injEq, Prod.mk.injEq, and_true] at h
    subst h
    obtain ⟨b1, hb1, hag⟩ := agree_drain inbox _ _ a1 hagree hd
    exact ⟨b1.emit (readMove kb), by rw [hb1], agree_emit _ _ _ hag⟩

/-- C8 amended, at the starting host state with left held and the write failing. -/
theorem update_ignores_write_failure_witness :
    Game.Update { failingHost with encoder := { failingHost.encoder with faults := [] } }
        [] leftHeld =
      .ok ({ encoder := { sent := [.move { Id := 0, X := 99, Y := 100 }], faults := [] },
             isServer := true,
             players := { p0 := { x := 99, y := 100 }, p1 := { x := 200, y := 200 } } }, none) ∧
    ∃ g2, Game.Update
        { failingHost with encoder := { failingHost.encoder with faults := [true] } }
        [] leftHeld = .ok (g2, none) ∧
      AgreeUpToFaults
        { encoder := { sent := [.move { Id := 0, X := 99, Y := 100 }], faults := [] },
          isServer := true,
          players := { p0 := { x := 99, y := 100 }, p1 := { x := 200, y := 200 } } } g2 :=
  ⟨rfl, update_ignores_write_failure failingHost [] leftHeld [true] _ rfl⟩

/-- C8 fails on the code: in the starting host state with left held, over a
connection whose next write fails, `Update` sends `{Id: 0, X: 99, Y: 100}`, the
write of that send returns an error, and `Update` still returns `nil`. -/
theorem write_failure_not_fatal :
    (Encoder.Encode failingHost.encoder (.move { Id := 0, X := 99, Y := 100 })).2 =
      some GoError.writeFailed ∧
    failingHost.emit (readMove leftHeld) =
      Game.NetSend { failingHost with players :=
          { p0 := { x := 99, y := 100 }, p1 := { x := 200, y := 200 } } }
        (.move { Id := 0, X := 99, Y := 100 }) ∧
    failingHost.Update [] leftHeld =
      .ok ({ encoder := { sent := [.move { Id := 0, X := 99, Y := 100 }], faults := [] },
             isServer := true,
             players := { p0 := { x := 99, y := 100 }, p1 := { x := 200, y := 200 } } }, none) :=
  ⟨rfl, rfl, rfl⟩

end NetSample
